import Mathlib

/-!
Verification of the extraction engine of tap-salesforce-commerce.

The definitions below are a shallow embedding of the Python source under
`src/tap_salesforce/` (client.py, streams.py, utils.py).  Pure fragments of
the code become Lean functions; the mutable attributes that the code updates
(`self.start_date`, `self.max_dates`, `self.count`, `self.currencies`,
`self.first_currency`) become explicit state records threaded through the
functions.  Replication-key timestamps are modelled as integers (they are
totally ordered values; `pendulum.parse` becomes the identity on the model
type).  HTTP responses are modelled as records carrying the fields the code
reads: status code, whether the JSON body parsed, the truthiness of the
"next" field, the "count" field, the fault type and fault currency of the
error envelope, the request url and the raw body text.

The file is organised as definitions first, theorems second.
-/

/-- One HTTP response as seen by the stream code.  `jsonOk` is whether
`response.json()` succeeds, `hasNext` models `"next" in res_json and
res_json["next"]`, `count` models `res_json["count"]`, `faultType` and
`faultCurrency` model `res_json["fault"]["type"]` and
`res_json["fault"]["arguments"]["currency"]` (`none` when absent),
`records` abstracts the records the body carries. -/
structure HttpResp where
  status : Nat
  jsonOk : Bool
  hasNext : Bool
  count : Int
  faultType : Option String
  faultCurrency : Option String
  url : String
  text : String
  records : List Nat
deriving DecidableEq

/-! ## ReplicationStateTracker: `SalesforceStream.__increment_stream_state`
(client.py lines 93-135).  The inner `increment_state` reads the stored
`replication_key_value` (absent on a fresh partition) and overwrites it with
the record value when `old_rk_value is None or new_rk_value >= old_rk_value`;
otherwise the stored dictionary is left untouched. -/

/-- `increment_state` from client.py: overwrite the stored value when it is
unset or the new value compares greater or equal, else keep the old value. -/
def incrementState (old : Option Int) (newVal : Int) : Option Int :=
  match old with
  | none => some newVal
  | some o => if o ≤ newVal then some newVal else some o

/-- Feeding a whole sequence of records to the tracker, one
`__increment_stream_state` call per record. -/
def advanceState (st : Option Int) (recs : List Int) : Option Int :=
  recs.foldl incrementState st

/-! ## PaginationDriver cursor: `SalesforceStream.get_next_page_token`
(client.py lines 171-213).  The method reads and writes two mutable stream
attributes, `self.start_date` and `self.max_dates`, gathered here into
`PagState`.  The stream-dependent guards `self.name in
pagination_limit_streams` and `self.replication_key` become the two flags of
`GnptCfg`.  The high-water mark
`self.stream_state["progress_markers"]["replication_key_value"]` is the
`marker` argument (`none` when the key is absent or its value falsy). -/

/-- The mutable pagination attributes of a stream: `self.max_dates` (the
replication-key values already used as ceiling restart points, appended in
order) and `self.start_date` (the override used by the orders request
payload). -/
structure PagState where
  maxDates : List Int
  startDate : Option Int
deriving DecidableEq

/-- Which stream `get_next_page_token` runs for: `isOrders` models
`self.name in pagination_limit_streams` (that list is `["orders"]`) and
`hasReplKey` models the truthiness of `self.replication_key`. -/
structure GnptCfg where
  isOrders : Bool
  hasReplKey : Bool
deriving DecidableEq

/-- The fixed Salesforce pagination ceiling for order search. -/
def paginationLimit : Int := 10000

/-- `SalesforceStream.get_next_page_token`.  Returns the updated mutable
state together with the next page token (`none` ends pagination).  Mirrors
the source: reset `start_date` when the previous token is `None`; return
`None` on 204/404; otherwise, when the "next" field of the body is truthy,
the token is `(previous_token or 0) + count`, except that the orders stream
with a replication key resets the token to 0 at the 10000-row ceiling using
the high-water mark as a restart point (`None` when the mark is missing or
was already used). -/
def getNextPageToken (cfg : GnptCfg) (marker : Option Int) (st : PagState)
    (r : HttpResp) (prev : Option Int) : PagState × Option Int :=
  let st1 := if prev = none then { st with startDate := none } else st
  if r.status = 204 ∨ r.status = 404 then (st1, none)
  else if r.hasNext then
    let tok := prev.getD 0 + r.count
    if cfg.isOrders = true ∧ cfg.hasReplKey = true ∧ paginationLimit ≤ tok then
      match marker with
      | none => (st1, none)
      | some d =>
          if d ∈ st1.maxDates then (st1, none)
          else ({ maxDates := st1.maxDates ++ [d], startDate := some d }, some 0)
    else (st1, some tok)
  else (st1, none)

/-- The "from" bound of the orders range filter,
`(self.start_date or self.get_starting_time(context))` in
`OrdersStream.prepare_request_payload` (streams.py line 1141). -/
def ordersRangeFrom (startDate : Option Int) (startingTime : Int) : Int :=
  startDate.getD startingTime

/-! ## PaginationDriver loop: `SalesforceStream.request_records`
(client.py lines 294-327).  Each iteration issues one request, yields the
parsed records, computes the next token from the response, raises
`RuntimeError` when `next_page_token and next_page_token == previous_token`
(Python truthiness: an integer token 0 is falsy), and stops when the token
is `None`.  The run is driven by the finite script of responses the server
would return; the result counts the requests actually issued. -/

/-- Python truthiness of an integer page token: `None` and 0 are falsy. -/
def tokenTruthy : Option Int → Bool
  | none => false
  | some v => v ≠ 0

/-- How a `request_records` run ends: normally (token `None`), with the
pagination-loop `RuntimeError`, or with the response script exhausted while
the loop still wanted to issue another request. -/
inductive RunOutcome
  | finished
  | loopError
  | scriptEnded
deriving DecidableEq

/-- `SalesforceStream.request_records`: number of requests issued and the
outcome, for a given response script, pagination state and starting token.
The high-water `marker` is held fixed across the run (its advancement is
modelled separately by `advanceState`). -/
def requestRecordsRun (cfg : GnptCfg) (marker : Option Int) :
    List HttpResp → PagState → Option Int → Nat × RunOutcome
  | [], _, _ => (0, .scriptEnded)
  | r :: rs, st, prev =>
      let next := getNextPageToken cfg marker st r prev
      if tokenTruthy next.2 = true ∧ next.2 = prev then (1, .loopError)
      else if next.2 = none then (1, .finished)
      else
        let rest := requestRecordsRun cfg marker rs next.1 next.2
        (rest.1 + 1, rest.2)

/-! ## Token redaction: `cover_access_token` (utils.py lines 3-16).  The
Python function checks whether the literal substring `"accessToken"` occurs
in the body and, if so, applies
`re.sub(r_dq_accessToken_dq \s* : \s* dq [^dq]* dq, dq accessToken dq : dq****dq, text)`
replacing every occurrence of an accessToken JSON field by a masked field.
The scanner below implements exactly that left-to-right leftmost-match
substitution over the character list of the body. -/

/-- Python regex whitespace class for the byte range the pattern can meet:
space, tab, newline, carriage return, vertical tab, form feed. -/
def isWsChar (c : Char) : Bool :=
  c == ' ' || c == '\t' || c == '\n' || c == '\r' || c == '\x0b' || c == '\x0c'

/-- The literal `"accessToken"` (with the surrounding JSON double quotes)
that both the containment guard and the pattern start with. -/
def litAccessToken : List Char :=
  ['"', 'a', 'c', 'c', 'e', 's', 's', 'T', 'o', 'k', 'e', 'n', '"']

/-- The replacement text `"accessToken": "****"` as characters. -/
def maskChars : List Char :=
  ['"', 'a', 'c', 'c', 'e', 's', 's', 'T', 'o', 'k', 'e', 'n', '"', ':', ' ',
   '"', '*', '*', '*', '*', '"']

/-- Consume an exact literal from the front of the input, returning the
remainder on success. -/
def stripLit : List Char → List Char → Option (List Char)
  | [], l => some l
  | _ :: _, [] => none
  | p :: ps, c :: cs => if c = p then stripLit ps cs else none

/-- Drop leading regex whitespace. -/
def dropWsL : List Char → List Char
  | [] => []
  | c :: cs => if isWsChar c then dropWsL cs else c :: cs

/-- Consume the `[^dq]*` value characters and the closing double quote of
the pattern, returning the remainder after the closing quote. -/
def consumeValue : List Char → Option (List Char)
  | [] => none
  | c :: cs => if c = '"' then some cs else consumeValue cs

/-- Match the full pattern (literal, optional whitespace, colon, optional
whitespace, quoted value) at the head of the input; on success return the
input remainder after the match. -/
def matchTokenField (l : List Char) : Option (List Char) :=
  match stripLit litAccessToken l with
  | none => none
  | some r1 =>
      match dropWsL r1 with
      | ':' :: r2 =>
          match dropWsL r2 with
          | '"' :: r3 => consumeValue r3
          | _ => none
      | _ => none

/-- Leftmost-match global substitution: at each position, if the pattern
matches, emit the mask and continue after the match, else emit the
character and advance.  Fuel bounds the recursion; one unit per emitted
position is always enough. -/
def subMask : Nat → List Char → List Char
  | 0, l => l
  | _ + 1, [] => []
  | fuel + 1, c :: cs =>
      match matchTokenField (c :: cs) with
      | some rest => maskChars ++ subMask fuel rest
      | none => c :: subMask fuel cs

/-- Python substring containment `needle in haystack`. -/
def containsLit (needle : List Char) : List Char → Bool
  | [] => needle.isEmpty
  | c :: cs => (stripLit needle (c :: cs)).isSome || containsLit needle cs

/-- `cover_access_token` from utils.py: when the body mentions the
`"accessToken"` literal, mask the value of every accessToken JSON field;
otherwise return the body unchanged. -/
def coverAccessToken (s : String) : String :=
  if containsLit litAccessToken s.toList then
    String.mk (subMask (s.toList.length + 1) s.toList)
  else s

/-- The fatal 4xx error text built in `SalesforceStream.validate_response`
(client.py lines 260-267): the status, the request url, and the redacted
response body. -/
def fatalErrorMessage (status : Nat) (url : String) (body : String) : String :=
  "Status:" ++ toString status ++ " for url:" ++ url ++ " with response: " ++
    coverAccessToken body

/-- A body holding the secret `v` as the value of an accessToken JSON
field. -/
def tokenBody (v : String) : String :=
  String.mk (litAccessToken ++ ':' :: ' ' :: '"' :: (v.toList ++ ['"']))

/-- An accessToken JSON field rendered as characters, value `v`. -/
def tokenFieldChars (v : List Char) : List Char :=
  litAccessToken ++ ':' :: ' ' :: '"' :: (v ++ ['"'])

/-! To reason about the substitution on bodies that hold accessToken fields
alongside arbitrary other content, the pattern matcher is refined into a
three-valued probe.  On a chunk of text considered on its own, the probe
distinguishes a definitive mismatch (`failChar`: the pattern fails at this
position whatever text follows the chunk) from running off the end of the
chunk while still matching (`failEnd`: a continuation of the text could
still complete the match, so the chunk is not self-contained). -/

/-- Result of probing the pattern against a chunk in isolation. -/
inductive ProbeResult
  | matched (rest : List Char)
  | failChar
  | failEnd
deriving DecidableEq

/-- Probe an exact literal at the front of a chunk. -/
def stripLitP : List Char → List Char → ProbeResult
  | [], l => .matched l
  | _ :: _, [] => .failEnd
  | p :: ps, c :: cs => if c = p then stripLitP ps cs else .failChar

/-- Probe `\s* :` at the front of a chunk. -/
def expectColonWs : List Char → ProbeResult
  | [] => .failEnd
  | c :: cs =>
      if c = ':' then .matched cs
      else if isWsChar c then expectColonWs cs
      else .failChar

/-- Probe the opening `\s* dq` of the value at the front of a chunk. -/
def expectQuoteWs : List Char → ProbeResult
  | [] => .failEnd
  | c :: cs =>
      if c = '"' then .matched cs
      else if isWsChar c then expectQuoteWs cs
      else .failChar

/-- Probe the value characters and closing quote at the front of a chunk. -/
def consumeValueP : List Char → ProbeResult
  | [] => .failEnd
  | c :: cs => if c = '"' then .matched cs else consumeValueP cs

/-- Probe the whole accessToken-field pattern against a chunk in
isolation. -/
def probeTokenField (l : List Char) : ProbeResult :=
  match stripLitP litAccessToken l with
  | .failChar => .failChar
  | .failEnd => .failEnd
  | .matched r1 =>
      match expectColonWs r1 with
      | .failChar => .failChar
      | .failEnd => .failEnd
      | .matched r2 =>
          match expectQuoteWs r2 with
          | .failChar => .failChar
          | .failEnd => .failEnd
          | .matched r3 =>
              match consumeValueP r3 with
              | .failChar => .failChar
              | .failEnd => .failEnd
              | .matched r4 => .matched r4

/-- Run the substitution scanner over a chunk in isolation, requiring every
pattern attempt to resolve inside the chunk (`none` when the chunk dangles
an unfinished pattern off its end, or on fuel exhaustion, which a fuel of
the chunk length rules out).  Returns the scanned output together with the
number of scan steps taken. -/
def safeScan : Nat → List Char → Option (List Char × Nat)
  | _, [] => some ([], 0)
  | 0, _ :: _ => none
  | fuel + 1, c :: cs =>
      match probeTokenField (c :: cs) with
      | .matched rest =>
          match safeScan fuel rest with
          | some (o, n) => some (maskChars ++ o, n + 1)
          | none => none
      | .failChar =>
          match safeScan fuel cs with
          | some (o, n) => some (c :: o, n + 1)
          | none => none
      | .failEnd => none

/-- A body laid out as a leading chunk followed by accessToken fields each
followed by a further chunk: the second components are the chunks, the
first components the field values. -/
def renderTail : List (List Char × List Char) → List Char
  | [] => []
  | p :: rest => tokenFieldChars p.1 ++ p.2 ++ renderTail rest

/-- The expected output of the substitution on the field/chunk tail of a
body: every field becomes the mask, every chunk its self-contained scan
(`none` when some chunk is not self-contained). -/
def maskedTailOut : List (List Char × List Char) → Option (List Char)
  | [] => some []
  | p :: rest =>
      match safeScan p.2.length p.2, maskedTailOut rest with
      | some (o, _), some orest => some (maskChars ++ o ++ orest)
      | _, _ => none

/-! ## ResponseClassifier: `SalesforceStream.validate_response` (client.py
lines 245-267) and `SalesforceStream.parse_response` (lines 269-272).  The
classifier first handles retriable statuses (the extra retry-status set, or
any 5xx), halving the page size `self.count` before raising; a body that
fails to parse as JSON is retriable; a 4xx whose fault type is not
`ProductNotFoundException` is fatal with a redacted body.  The page size
read is `self.count if hasattr(self, "count") else 200`, modelled as
`Option Nat` with default 200 (the `hasattr(self.config, "order_page_size")`
branch is dead code: `self.config` is a mapping, the key is never an
attribute). -/

/-- Classification outcome of one `validate_response` call. -/
inductive BaseOutcome
  | ok
  | retriableStatus
  | retriableDecode
  | fatal (msg : String)
deriving DecidableEq

/-- `SalesforceStream.validate_response`: the new `self.count` and the
classification.  `count` is `none` while the stream has no `count`
attribute yet. -/
def validateResponseBase (extraRetry : List Nat) (count : Option Nat)
    (r : HttpResp) : Option Nat × BaseOutcome :=
  if r.status ∈ extraRetry ∨ (500 ≤ r.status ∧ r.status < 600) then
    (some (count.getD 200 / 2), .retriableStatus)
  else if r.jsonOk = false then
    (count, .retriableDecode)
  else if 400 ≤ r.status ∧ r.status < 500 ∧
      r.faultType ≠ some "ProductNotFoundException" then
    (count, .fatal (fatalErrorMessage r.status r.url r.text))
  else (count, .ok)

/-- `SalesforceStream.parse_response`: no records are yielded for a 404
response (the `response != []` guard is always true for a response
object). -/
def parseResponseBase (r : HttpResp) : List Nat :=
  if r.status = 404 then [] else r.records

/-- The `self.count` value after a sequence of `validate_response` calls. -/
def runValidations (extraRetry : List Nat) (rs : List HttpResp)
    (count : Option Nat) : Option Nat :=
  rs.foldl (fun c r => (validateResponseBase extraRetry c r).1) count

/-! ## Multi-tenant fan-out: `SalesforceStream.get_records` (client.py lines
158-169) and `SalesforceStream.__write_starting_replication_value` (lines
137-156).  For a site-specific stream whose configured `site_id` holds a
comma, the code splits the configuration on commas (spaces removed), and for
each site id, in order, writes the starting replication value into the
partition keyed by that site id and then delegates the actual extraction to
the framework `get_records`.  The observable call order is recorded as a
trace of events. -/

/-- One observable step of the fan-out loop: a starting-replication-value
floor-marker write for a partition, or the per-partition extraction (the
delegation that issues the fetches of that partition). -/
inductive SyncEvent
  | writeMarker (siteId : String)
  | extract (siteId : String)
deriving DecidableEq, BEq

/-- Python `str.split(",")`: cut the character list at every comma, keeping
empty pieces. -/
def splitOnComma : List Char → List (List Char)
  | [] => [[]]
  | c :: cs =>
      match splitOnComma cs, c == ',' with
      | rest, true => [] :: rest
      | [], false => [[c]]
      | g :: gs, false => (c :: g) :: gs

/-- `self.config.get("site_id").replace(" ", "").split(",")`: remove every
space, then split on commas. -/
def splitSiteIds (cfg : String) : List String :=
  (splitOnComma (cfg.toList.filter (fun c => c ≠ ' '))).map String.mk

/-- The event trace of `SalesforceStream.get_records`: in the fan-out case
(site-specific stream, comma in the configured site id) one marker write
followed by one extraction per site id, in configuration order; otherwise a
single delegated extraction. -/
def getRecordsTrace (siteSpecific : Bool) (siteIdCfg : String) :
    List SyncEvent :=
  if siteSpecific && siteIdCfg.toList.contains ',' then
    ((splitSiteIds siteIdCfg).map
      (fun s => [SyncEvent.writeMarker s, SyncEvent.extract s])).flatten
  else [SyncEvent.extract siteIdCfg]

/-- Whether some marker write occurs after some extraction in the trace. -/
def isMarkerEvent : SyncEvent → Bool
  | .writeMarker _ => true
  | .extract _ => false

/-- True when a floor-marker write appears later in the trace than an
extraction. -/
def markerAfterFetch : List SyncEvent → Bool
  | [] => false
  | SyncEvent.writeMarker _ :: es => markerAfterFetch es
  | SyncEvent.extract _ :: es => es.any isMarkerEvent || markerAfterFetch es

/-- Number of extraction events for one site id. -/
def countExtract (siteId : String) (tr : List SyncEvent) : Nat :=
  tr.countP (fun e => e == SyncEvent.extract siteId)

/-- Check, walking the trace with the set of already written markers, that
the floor marker of each partition is written before that partition is
extracted. -/
def markersSeen : List String → List SyncEvent → Bool
  | _, [] => true
  | seen, SyncEvent.writeMarker s :: es => markersSeen (s :: seen) es
  | seen, SyncEvent.extract s :: es => seen.contains s && markersSeen seen es

/-- Every extraction of the trace is preceded by the floor-marker write of
its own partition. -/
def eachMarkerBeforeOwnFetch (tr : List SyncEvent) : Bool :=
  markersSeen [] tr

/-! ## Products stream currency machinery (streams.py, `ProductsStream`):
the class-level mutable currency list (line 228), `get_next_page_token`
(lines 282-294), `get_url_params` (lines 296-305) and `validate_response`
(lines 312-339).  `self.currencies.remove(x)` raises `ValueError` when `x`
is absent and `self.currencies[i]` raises `IndexError` out of range; both
Python failure modes are modelled as `none`. -/

/-- The mutable products-stream attributes: the working currency list and
`self.first_currency`. -/
structure ProductsState where
  currencies : List String
  firstCurrency : Option String
deriving DecidableEq

/-- The class-level initial state: `currencies = ["USD", "EUR", "GBP"]`,
`first_currency = "USD"`. -/
def productsInitState : ProductsState :=
  { currencies := ["USD", "EUR", "GBP"], firstCurrency := some "USD" }

/-- Outcome of one `ProductsStream.validate_response` call. -/
inductive ProdOutcome
  | ok
  | retriableErr
  | fatalErr
  | pyError
deriving DecidableEq

/-- Python `list.remove`: drop the first occurrence, `ValueError` (modelled
as `none`) when the element is absent or the argument is `None`. -/
def pyRemove (l : List String) (x : Option String) : Option (List String) :=
  match x with
  | some s => if s ∈ l then some (l.erase s) else none
  | none => none

/-- Python list indexing with negative-index wrap-around; `none` is
`IndexError`. -/
def pyIndex (l : List String) (i : Int) : Option String :=
  if 0 ≤ i then l[i.toNat]?
  else if 0 ≤ i + l.length then l[(i + (l.length : Int)).toNat]?
  else none

/-- `ProductsStream.validate_response`: an unparseable body is fatal; a 400
whose fault is `UnsupportedCurrencyException` removes the fault currency
from the working list and raises nothing; retriable statuses raise
`RetriableAPIError`; other 4xx with a fault different from
`ProductNotFoundException` are fatal. -/
def productsValidate (extraRetry : List Nat) (s : ProductsState)
    (r : HttpResp) : ProductsState × ProdOutcome :=
  if r.jsonOk = false then (s, .fatalErr)
  else if r.status = 400 then
    if r.faultType = some "UnsupportedCurrencyException" then
      match pyRemove s.currencies r.faultCurrency with
      | some cs => ({ s with currencies := cs }, .ok)
      | none => (s, .pyError)
    else (s, .ok)
  else if r.status ∈ extraRetry ∨ (500 ≤ r.status ∧ r.status < 600) then
    (s, .retriableErr)
  else if 400 ≤ r.status ∧ r.status < 500 ∧
      r.faultType ≠ some "ProductNotFoundException" then
    (s, .fatalErr)
  else (s, .ok)

/-- `ProductsStream.get_next_page_token`: iterate the currency index; while
below the end of the currency list clear `first_currency` and advance,
otherwise restore `first_currency` to the head of the list for the next
product and stop (`none` also models the `IndexError` on an empty list). -/
def productsGnpt (s : ProductsState) (prev : Option Int) :
    Option (ProductsState × Option Int) :=
  let p := prev.getD 0
  if p < (s.currencies.length : Int) - 1 then
    some ({ s with firstCurrency := none }, some (p + 1))
  else
    match s.currencies with
    | [] => none
    | c :: _ => some ({ s with firstCurrency := some c }, none)

/-- The `currency` url parameter of `ProductsStream.get_url_params`: the
first currency when set, else the currency list at the page token when the
token is truthy, else no parameter.  The outer `Option` is the Python
`IndexError`. -/
def productsUrlCurrency (s : ProductsState) (tok : Option Int) :
    Option (Option String) :=
  match s.firstCurrency with
  | some c => some (some c)
  | none =>
      if tokenTruthy tok then (pyIndex s.currencies (tok.getD 0)).map some
      else some none

/-- One state-changing step of a products-stream run: a response
classification or a next-page-token computation. -/
inductive ProdEvent
  | validate (r : HttpResp)
  | nextToken (prev : Option Int)

/-- Apply one event to the products-stream state; `none` is a Python
exception escaping (`ValueError` or `IndexError`). -/
def prodStep (extraRetry : List Nat) (s : ProductsState) :
    ProdEvent → Option ProductsState
  | .validate r =>
      match productsValidate extraRetry s r with
      | (_, .pyError) => none
      | (s2, _) => some s2
  | .nextToken prev => (productsGnpt s prev).map Prod.fst

/-- Run a sequence of products-stream events. -/
def prodRun (extraRetry : List Nat) (s : ProductsState) :
    List ProdEvent → Option ProductsState
  | [] => some s
  | e :: es =>
      match prodStep extraRetry s e with
      | none => none
      | some s2 => prodRun extraRetry s2 es

/-! ## Orders stream with a configured order-id list (streams.py,
`OrdersStream.get_next_page_token` lines 1174-1185 and
`OrdersStream.prepare_request_payload` lines 1124-1138).  With a non-empty
`order_ids` configuration the token walks the index list; each payload
searches for `order_ids[next_page_token or 0]`. -/

/-- `OrdersStream.get_next_page_token`: with configured order ids advance
the index while below the last one; otherwise delegate to the base
implementation (the orders stream has the replication key
`last_modified`). -/
def ordersGetNextPageToken (orderIds : List String) (marker : Option Int)
    (st : PagState) (r : HttpResp) (prev : Option Int) :
    PagState × Option Int :=
  if orderIds.isEmpty then getNextPageToken ⟨true, true⟩ marker st r prev
  else
    let p := prev.getD 0
    if p < (orderIds.length : Int) - 1 then (st, some (p + 1)) else (st, none)

/-- The `search_phrase` of the order-search payload,
`order_ids[next_page_token or 0]`. -/
def ordersSearchPhrase (orderIds : List String) (tok : Option Int) :
    Option String :=
  pyIndex orderIds (tok.getD 0)

/-- `request_records` for the orders stream in the configured-order-ids
case, collecting the search phrase of every request issued.  With order
ids present `get_next_page_token` never touches `PagState` and never reads
the response, so the pagination state and the marker are fixed here. -/
def ordersIdRun (orderIds : List String) :
    List HttpResp → Option Int → List (Option String) × RunOutcome
  | [], _ => ([], .scriptEnded)
  | r :: rs, prev =>
      let phrase := ordersSearchPhrase orderIds prev
      let next := (ordersGetNextPageToken orderIds none ⟨[], none⟩ r prev).2
      if tokenTruthy next = true ∧ next = prev then ([phrase], .loopError)
      else if next = none then ([phrase], .finished)
      else
        let rest := ordersIdRun orderIds rs next
        (phrase :: rest.1, rest.2)

/-!
# Theorems

Helper lemmas first, then one theorem per claim (with witness or
counterexample theorems where the claim status requires them).
-/

theorem incrementState_some_le (o n : Int) :
    ∃ w, incrementState (some o) n = some w ∧ o ≤ w := by
  unfold incrementState
  by_cases h : o ≤ n
  · exact ⟨n, by simp [h], h⟩
  · exact ⟨o, by simp [h], le_refl o⟩

theorem advanceState_some (st : Option Int) (recs : List Int) (v : Int)
    (h : st = some v) : ∃ w, advanceState st recs = some w ∧ v ≤ w := by
  induction recs generalizing st v with
  | nil => exact ⟨v, by simp [advanceState, h], le_refl v⟩
  | cons a l ih =>
      subst h
      obtain ⟨u, hu, hvu⟩ := incrementState_some_le v a
      obtain ⟨w, hw, huw⟩ := ih (incrementState (some v) a) u hu
      refine ⟨w, ?_, le_trans hvu huw⟩
      simpa [advanceState] using hw

/-- C1.  The stored replication-key value never decreases under the advance
operation: the first write is always accepted, a smaller record value leaves
the stored value untouched, a greater-or-equal record value overwrites it,
and over any sequence of records a set value can only move forward. -/
theorem replication_state_never_decreases :
    (∀ v : Int, incrementState none v = some v) ∧
    (∀ o n : Int, n < o → incrementState (some o) n = some o) ∧
    (∀ o n : Int, o ≤ n → incrementState (some o) n = some n) ∧
    (∀ (recs : List Int) (v : Int),
      ∃ w, advanceState (some v) recs = some w ∧ v ≤ w) := by
  refine ⟨fun v => rfl, fun o n h => ?_, fun o n h => ?_, fun recs v => ?_⟩
  · simp [incrementState, not_le.mpr h, le_of_lt h]
  · simp [incrementState, h]
  · exact advanceState_some (some v) recs v rfl

/-- Closed instance of C1: a record with value 3 does not move the stored
value 5 backwards, and the first write on a fresh partition is accepted. -/
theorem replication_state_never_decreases_witness :
    incrementState (some 5) 3 = some 5 ∧ incrementState none 7 = some 7 :=
  ⟨replication_state_never_decreases.2.1 5 3 (by decide),
   replication_state_never_decreases.1 7⟩

/-- C3.  Orders-stream ceiling workaround: when the computed next offset
reaches the 10000-row limit and the high-water value `v1` was not used as a
restart point before, the token is reset to 0, `start_date` becomes `v1` (so
the range filter of the next request starts from `v1`) and `v1` is recorded
as used; when `v1` was already used, the token is `None` and pagination
ends. -/
theorem orders_ceiling_workaround (st : PagState) (prev : Option Int)
    (r : HttpResp) (v1 ctxStart : Int)
    (hst : ¬(r.status = 204 ∨ r.status = 404)) (hnext : r.hasNext = true)
    (hlim : paginationLimit ≤ prev.getD 0 + r.count) :
    (v1 ∉ st.maxDates →
      (getNextPageToken ⟨true, true⟩ (some v1) st r prev).2 = some 0 ∧
      (getNextPageToken ⟨true, true⟩ (some v1) st r prev).1.startDate = some v1 ∧
      v1 ∈ (getNextPageToken ⟨true, true⟩ (some v1) st r prev).1.maxDates ∧
      ordersRangeFrom
        (getNextPageToken ⟨true, true⟩ (some v1) st r prev).1.startDate
        ctxStart = v1) ∧
    (v1 ∈ st.maxDates →
      (getNextPageToken ⟨true, true⟩ (some v1) st r prev).2 = none) := by
  constructor
  · intro hnew
    by_cases hp : prev = none
    · subst hp
      simp only [Option.getD_none] at hlim
      simp_all [getNextPageToken, ordersRangeFrom]
    · simp_all [getNextPageToken, ordersRangeFrom]
  · intro hold
    by_cases hp : prev = none
    · subst hp
      simp only [Option.getD_none] at hlim
      simp_all [getNextPageToken]
    · simp_all [getNextPageToken]

/-- Closed instance of C3: at offset 9000 with page count 2000 the computed
token 11000 crosses the ceiling; with fresh high-water mark 7 the token is
reset to 0 and the range filter starts from 7. -/
theorem orders_ceiling_workaround_witness :
    (getNextPageToken ⟨true, true⟩ (some 7) ⟨[], none⟩
        ⟨200, true, true, 2000, none, none, "u", "b", []⟩ (some 9000)).2 = some 0 ∧
    ordersRangeFrom
      (getNextPageToken ⟨true, true⟩ (some 7) ⟨[], none⟩
        ⟨200, true, true, 2000, none, none, "u", "b", []⟩ (some 9000)).1.startDate
      3 = 7 :=
  ⟨((orders_ceiling_workaround ⟨[], none⟩ (some 9000)
      ⟨200, true, true, 2000, none, none, "u", "b", []⟩ 7 3
      (by decide) rfl (by decide)).1 (by decide)).1,
   (((orders_ceiling_workaround ⟨[], none⟩ (some 9000)
      ⟨200, true, true, 2000, none, none, "u", "b", []⟩ 7 3
      (by decide) rfl (by decide)).1 (by decide)).2).2.2⟩

/-- C4 counterexample.  For the orders stream at the pagination ceiling the
returned token is not `previous + count`: with previous token 5000 and count
5000 the code returns 0, not 10000. -/
theorem next_cursor_not_always_sum :
    (getNextPageToken ⟨true, true⟩ (some 7) ⟨[], none⟩
        ⟨200, true, true, 5000, none, none, "u", "b", []⟩ (some 5000)).2 = some 0 ∧
    some (0 : Int) ≠ some ((5000 : Int) + 5000) := by
  constructor
  · rfl
  · decide

/-- C4 (amended).  For a non-204/404 response with truthy "next", the next
token is `(previous or 0) + count` unless the orders ceiling workaround
applies (orders stream with replication key and computed token at least
10000); when "next" is absent or falsy the token is `None` and pagination
ends for the partition. -/
theorem next_cursor_computation :
    (∀ (cfg : GnptCfg) (marker : Option Int) (st : PagState) (r : HttpResp)
        (prev : Option Int),
      ¬(r.status = 204 ∨ r.status = 404) → r.hasNext = true →
      ¬(cfg.isOrders = true ∧ cfg.hasReplKey = true ∧
          paginationLimit ≤ prev.getD 0 + r.count) →
      (getNextPageToken cfg marker st r prev).2 = some (prev.getD 0 + r.count)) ∧
    (∀ (cfg : GnptCfg) (marker : Option Int) (st : PagState) (r : HttpResp)
        (prev : Option Int),
      r.hasNext = false → (getNextPageToken cfg marker st r prev).2 = none) := by
  constructor
  · intro cfg marker st r prev hst hnext hlim
    simp only [getNextPageToken, hst, if_false, hnext, if_true]
    rw [if_neg hlim]
  · intro cfg marker st r prev hnext
    by_cases hst : r.status = 204 ∨ r.status = 404 <;>
      simp [getNextPageToken, hst, hnext]

/-- Closed instance of C4 (amended): a plain catalog page with previous
token 10 and count 25 yields token 35, and a page without "next" ends
pagination. -/
theorem next_cursor_computation_witness :
    (getNextPageToken ⟨false, false⟩ none ⟨[], none⟩
        ⟨200, true, true, 25, none, none, "u", "b", []⟩ (some 10)).2 = some 35 ∧
    (getNextPageToken ⟨false, false⟩ none ⟨[], none⟩
        ⟨200, true, false, 25, none, none, "u", "b", []⟩ (some 10)).2 = none :=
  ⟨next_cursor_computation.1 ⟨false, false⟩ none ⟨[], none⟩
      ⟨200, true, true, 25, none, none, "u", "b", []⟩ (some 10)
      (by decide) rfl (by decide),
   next_cursor_computation.2 ⟨false, false⟩ none ⟨[], none⟩
      ⟨200, true, false, 25, none, none, "u", "b", []⟩ (some 10) rfl⟩

/-- C2 counterexample.  A response with a truthy "next" and `count = 0`
keeps producing the token 0: the second computed token (0) equals the
immediately preceding token and is non-null, yet no pagination-loop error is
raised and the loop keeps issuing requests (3 requests over a 3-response
script, not 2). -/
theorem pagination_loop_zero_token_not_detected :
    (getNextPageToken ⟨false, false⟩ none ⟨[], none⟩
        ⟨200, true, true, 0, none, none, "u", "b", []⟩ (some 0)).2 = some 0 ∧
    (some (0 : Int) ≠ none) ∧
    requestRecordsRun ⟨false, false⟩ none
        (List.replicate 3 ⟨200, true, true, 0, none, none, "u", "b", []⟩)
        ⟨[], none⟩ none = (3, .scriptEnded) := by
  refine ⟨rfl, by decide, ?_⟩
  rfl

/-- C2 (amended).  When the newly computed token is truthy (non-null and,
for integer tokens, non-zero) and equals the immediately preceding token,
`request_records` raises the pagination-loop error after the request that
revealed the loop and issues no further requests, whatever the rest of the
response script holds. -/
theorem pagination_loop_detected (cfg : GnptCfg) (marker : Option Int)
    (st : PagState) (prev : Option Int) (r : HttpResp) (rs : List HttpResp)
    (htr : tokenTruthy (getNextPageToken cfg marker st r prev).2 = true)
    (heq : (getNextPageToken cfg marker st r prev).2 = prev) :
    requestRecordsRun cfg marker (r :: rs) st prev = (1, .loopError) := by
  unfold requestRecordsRun
  rw [if_pos ⟨htr, heq⟩]

/-- Closed instance of C2 (amended): previous token 5 with a zero-count
"next" page recomputes token 5; the run stops with the loop error after one
request. -/
theorem pagination_loop_detected_witness :
    requestRecordsRun ⟨false, false⟩ none
      (List.replicate 2 ⟨200, true, true, 0, none, none, "u", "b", []⟩)
      ⟨[], none⟩ (some 5) = (1, .loopError) :=
  pagination_loop_detected ⟨false, false⟩ none ⟨[], none⟩ (some 5)
    ⟨200, true, true, 0, none, none, "u", "b", []⟩
    (List.replicate 1 ⟨200, true, true, 0, none, none, "u", "b", []⟩)
    (by decide) (by decide)

/-- C5 counterexample.  With tenant configuration "A,B" the floor markers
are interleaved with the extractions: the trace is marker A, extract A,
marker B, extract B, so the marker of B is written after the first fetches
of partition A, contradicting the requirement that both markers precede
either fetch. -/
theorem floor_markers_interleaved :
    getRecordsTrace true "A,B"
      = [SyncEvent.writeMarker "A", SyncEvent.extract "A",
         SyncEvent.writeMarker "B", SyncEvent.extract "B"] ∧
    markerAfterFetch (getRecordsTrace true "A,B") = true := by
  constructor
  · decide
  · decide

/-- C5 (amended).  With tenant configuration "A,B" the driver extracts each
tenant exactly once and writes a distinct floor marker for A and for B, each
marker written before the first fetch of its own partition (though not
before the fetches of the other partition). -/
theorem floor_marker_per_partition :
    getRecordsTrace true "A,B"
      = [SyncEvent.writeMarker "A", SyncEvent.extract "A",
         SyncEvent.writeMarker "B", SyncEvent.extract "B"] ∧
    countExtract "A" (getRecordsTrace true "A,B") = 1 ∧
    countExtract "B" (getRecordsTrace true "A,B") = 1 ∧
    eachMarkerBeforeOwnFetch (getRecordsTrace true "A,B") = true := by
  refine ⟨by decide, by decide, by decide, by decide⟩

/-- C6 counterexample.  The page-size halving has no floor of 1: starting a
run with no `count` attribute (default 200), eight consecutive retriable
500 responses drive `self.count` to 0, which is below 1. -/
theorem page_size_no_floor :
    runValidations [429]
        (List.replicate 8 ⟨500, true, false, 0, none, none, "u", "b", []⟩) none
      = some 0 ∧ ¬(1 ≤ 0) := by
  exact ⟨by decide, by decide⟩

/-- C6 (amended).  On a retriable classification (status in the extra
retry-status set or any 5xx) the page size is halved by integer division
before the retriable error is raised; under any classification the page
size never grows; but there is no floor of 1: the value may reach 0. -/
theorem page_size_halved_on_retriable :
    (∀ (extraRetry : List Nat) (count : Option Nat) (r : HttpResp),
      (r.status ∈ extraRetry ∨ (500 ≤ r.status ∧ r.status < 600)) →
      validateResponseBase extraRetry count r
        = (some (count.getD 200 / 2), .retriableStatus) ∧
      count.getD 200 / 2 ≤ count.getD 200) ∧
    (∀ (extraRetry : List Nat) (count : Option Nat) (r : HttpResp),
      ((validateResponseBase extraRetry count r).1).getD 200 ≤ count.getD 200) := by
  constructor
  · intro extraRetry count r h
    refine ⟨?_, Nat.div_le_self _ 2⟩
    unfold validateResponseBase
    rw [if_pos h]
  · intro extraRetry count r
    unfold validateResponseBase
    split_ifs <;> simp [Nat.div_le_self]

/-- Closed instance of C6 (amended): a 503 response halves the page size
from 100 to 50. -/
theorem page_size_halved_on_retriable_witness :
    validateResponseBase [429] (some 100)
        ⟨503, true, false, 0, none, none, "u", "b", []⟩
      = (some 50, .retriableStatus) :=
  (page_size_halved_on_retriable.1 [429] (some 100)
      ⟨503, true, false, 0, none, none, "u", "b", []⟩ (by decide)).1

/-- C8 counterexample.  A 404 response whose parsed fault type is not
`ProductNotFoundException` raises a fatal error instead of being treated as
an empty result. -/
theorem not_found_other_fault_fatal :
    (validateResponseBase [429] none
        ⟨404, true, false, 0, some "SiteNotFoundException", none, "u", "b", []⟩).2
      = .fatal "Status:404 for url:u with response: b" := rfl

/-- C8 (amended).  A 404 response with a parseable JSON body whose fault
type is `ProductNotFoundException` raises nothing, yields zero records, and
ends pagination for that entity (the next page token is `None`); 404s with
other fault types or unparseable bodies raise instead. -/
theorem not_found_treated_as_empty (extraRetry : List Nat)
    (count : Option Nat) (cfg : GnptCfg) (marker : Option Int) (st : PagState)
    (prev : Option Int) (r : HttpResp) (h404 : r.status = 404)
    (hex : 404 ∉ extraRetry) (hjson : r.jsonOk = true)
    (hfault : r.faultType = some "ProductNotFoundException") :
    validateResponseBase extraRetry count r = (count, .ok) ∧
    parseResponseBase r = [] ∧
    (getNextPageToken cfg marker st r prev).2 = none := by
  refine ⟨?_, ?_, ?_⟩
  · unfold validateResponseBase
    rw [if_neg (by rw [h404]; rintro (h | ⟨h5, _⟩); exact hex h; omega)]
    rw [if_neg (by rw [hjson]; simp)]
    rw [if_neg (by rw [hfault]; simp)]
  · unfold parseResponseBase
    rw [if_pos h404]
  · by_cases hp : prev = none <;>
      simp [getNextPageToken, h404, hp]

/-- Closed instance of C8 (amended): a product-lookup 404 with fault
`ProductNotFoundException` passes validation, yields no records, and ends
pagination. -/
theorem not_found_treated_as_empty_witness :
    validateResponseBase [429] (some 200)
        ⟨404, true, false, 0, some "ProductNotFoundException", none, "u", "b", [5]⟩
      = (some 200, .ok) ∧
    parseResponseBase
        ⟨404, true, false, 0, some "ProductNotFoundException", none, "u", "b", [5]⟩
      = [] ∧
    (getNextPageToken ⟨false, false⟩ none ⟨[], none⟩
        ⟨404, true, false, 0, some "ProductNotFoundException", none, "u", "b", [5]⟩
        none).2 = none :=
  not_found_treated_as_empty [429] (some 200) ⟨false, false⟩ none ⟨[], none⟩
    none ⟨404, true, false, 0, some "ProductNotFoundException", none, "u", "b", [5]⟩
    rfl (by decide) rfl rfl

theorem stripLit_self_append (p r : List Char) : stripLit p (p ++ r) = some r := by
  induction p with
  | nil => rfl
  | cons c cs ih => simp [stripLit, ih]

theorem consumeValue_no_quote (v r : List Char) (h : ∀ c ∈ v, c ≠ '"') :
    consumeValue (v ++ '"' :: r) = some r := by
  induction v with
  | nil => simp [consumeValue]
  | cons c cs ih =>
      have hc : c ≠ '"' := h c (by simp)
      simp only [List.cons_append, consumeValue, if_neg hc]
      exact ih (fun x hx => h x (by simp [hx]))

theorem matchTokenField_at_field (v r : List Char) (h : ∀ c ∈ v, c ≠ '"') :
    matchTokenField (litAccessToken ++ ':' :: ' ' :: '"' :: (v ++ '"' :: r))
      = some r := by
  unfold matchTokenField
  rw [stripLit_self_append]
  show consumeValue (v ++ '"' :: r) = some r
  exact consumeValue_no_quote v r h

theorem containsLit_self_append (c : Char) (cs r : List Char) :
    containsLit (c :: cs) ((c :: cs) ++ r) = true := by
  show containsLit (c :: cs) (c :: (cs ++ r)) = true
  unfold containsLit
  rw [show c :: (cs ++ r) = (c :: cs) ++ r from rfl, stripLit_self_append]
  rfl

theorem subMask_nil (fuel : Nat) : subMask fuel [] = [] := by
  cases fuel <;> rfl

theorem subMask_at_field (fuel : Nat) (v : List Char)
    (h : ∀ c ∈ v, c ≠ '"') :
    subMask (fuel + 1) (litAccessToken ++ ':' :: ' ' :: '"' :: (v ++ ['"']))
      = maskChars := by
  have hm := matchTokenField_at_field v [] h
  show subMask (fuel + 1)
      ('"' :: (['a', 'c', 'c', 'e', 's', 's', 'T', 'o', 'k', 'e', 'n', '"']
        ++ ':' :: ' ' :: '"' :: (v ++ ['"']))) = maskChars
  unfold subMask
  rw [show ('"' :: (['a', 'c', 'c', 'e', 's', 's', 'T', 'o', 'k', 'e', 'n', '"']
        ++ ':' :: ' ' :: '"' :: (v ++ ['"'])))
      = litAccessToken ++ ':' :: ' ' :: '"' :: (v ++ '"' :: []) from rfl, hm]
  show maskChars ++ subMask fuel [] = maskChars
  rw [subMask_nil, List.append_nil]

theorem coverAccessToken_tokenBody (v : String)
    (h : ∀ c ∈ v.toList, c ≠ '"') :
    coverAccessToken (tokenBody v) = String.mk maskChars := by
  have hlist : (tokenBody v).toList
      = litAccessToken ++ ':' :: ' ' :: '"' :: (v.toList ++ ['"']) := rfl
  have hin : containsLit litAccessToken (tokenBody v).toList = true := by
    rw [hlist]
    exact containsLit_self_append '"'
      ['a', 'c', 'c', 'e', 's', 's', 'T', 'o', 'k', 'e', 'n', '"'] _
  unfold coverAccessToken
  rw [hin]
  simp only [if_true]
  rw [hlist, subMask_at_field _ _ h]

/-- C9 counterexample.  The redaction only recognises the JSON key
`"accessToken"`: a 4xx body carrying the secret under the snake-case key
`"access_token"` reaches the fatal error message unmasked, so the raw token
value appears in the propagated error text. -/
theorem token_redaction_misses_snake_case :
    coverAccessToken "\"access_token\": \"SECRET\""
      = "\"access_token\": \"SECRET\"" ∧
    containsLit ("SECRET".toList)
      (fatalErrorMessage 400 "u" "\"access_token\": \"SECRET\"").toList
      = true := by
  exact ⟨rfl, by decide⟩

theorem stripLitP_matched_append (p : List Char) :
    ∀ (b r x : List Char), stripLitP p b = .matched r →
      stripLit p (b ++ x) = some (r ++ x) := by
  induction p with
  | nil =>
      intro b r x h
      injection h with h1
      subst h1
      rfl
  | cons pc ps ih =>
      intro b r x h
      cases b with
      | nil => cases h
      | cons c cs =>
          unfold stripLitP at h
          by_cases hc : c = pc
          · rw [if_pos hc] at h
            show stripLit (pc :: ps) (c :: (cs ++ x)) = some (r ++ x)
            unfold stripLit
            rw [if_pos hc]
            exact ih cs r x h
          · rw [if_neg hc] at h
            cases h

theorem stripLitP_failChar_none (p : List Char) :
    ∀ (b x : List Char), stripLitP p b = .failChar →
      stripLit p (b ++ x) = none := by
  induction p with
  | nil =>
      intro b x h
      cases h
  | cons pc ps ih =>
      intro b x h
      cases b with
      | nil => cases h
      | cons c cs =>
          unfold stripLitP at h
          by_cases hc : c = pc
          · rw [if_pos hc] at h
            show stripLit (pc :: ps) (c :: (cs ++ x)) = none
            unfold stripLit
            rw [if_pos hc]
            exact ih cs x h
          · show stripLit (pc :: ps) (c :: (cs ++ x)) = none
            unfold stripLit
            rw [if_neg hc]

theorem expectColonWs_matched_drop :
    ∀ (b r x : List Char), expectColonWs b = .matched r →
      dropWsL (b ++ x) = ':' :: (r ++ x) := by
  intro b
  induction b with
  | nil =>
      intro r x h
      cases h
  | cons c cs ih =>
      intro r x h
      unfold expectColonWs at h
      by_cases hc : c = ':'
      · rw [if_pos hc] at h
        injection h with h1
        subst h1
        subst hc
        show dropWsL (':' :: (cs ++ x)) = ':' :: (cs ++ x)
        rfl
      · rw [if_neg hc] at h
        by_cases hw : isWsChar c = true
        · rw [if_pos hw] at h
          show dropWsL (c :: (cs ++ x)) = ':' :: (r ++ x)
          unfold dropWsL
          rw [if_pos hw]
          exact ih r x h
        · rw [if_neg hw] at h
          cases h

theorem expectColonWs_failChar_drop :
    ∀ (b x : List Char), expectColonWs b = .failChar →
      ∃ c rest, dropWsL (b ++ x) = c :: rest ∧ c ≠ ':' := by
  intro b
  induction b with
  | nil =>
      intro x h
      cases h
  | cons c cs ih =>
      intro x h
      unfold expectColonWs at h
      by_cases hc : c = ':'
      · rw [if_pos hc] at h
        cases h
      · rw [if_neg hc] at h
        by_cases hw : isWsChar c = true
        · rw [if_pos hw] at h
          obtain ⟨c2, rest, hd, hne⟩ := ih x h
          refine ⟨c2, rest, ?_, hne⟩
          show dropWsL (c :: (cs ++ x)) = c2 :: rest
          unfold dropWsL
          rw [if_pos hw]
          exact hd
        · refine ⟨c, cs ++ x, ?_, hc⟩
          show dropWsL (c :: (cs ++ x)) = c :: (cs ++ x)
          unfold dropWsL
          rw [if_neg hw]

theorem expectQuoteWs_matched_drop :
    ∀ (b r x : List Char), expectQuoteWs b = .matched r →
      dropWsL (b ++ x) = '"' :: (r ++ x) := by
  intro b
  induction b with
  | nil =>
      intro r x h
      cases h
  | cons c cs ih =>
      intro r x h
      unfold expectQuoteWs at h
      by_cases hc : c = '"'
      · rw [if_pos hc] at h
        injection h with h1
        subst h1
        subst hc
        show dropWsL ('"' :: (cs ++ x)) = '"' :: (cs ++ x)
        rfl
      · rw [if_neg hc] at h
        by_cases hw : isWsChar c = true
        · rw [if_pos hw] at h
          show dropWsL (c :: (cs ++ x)) = '"' :: (r ++ x)
          unfold dropWsL
          rw [if_pos hw]
          exact ih r x h
        · rw [if_neg hw] at h
          cases h

theorem expectQuoteWs_failChar_drop :
    ∀ (b x : List Char), expectQuoteWs b = .failChar →
      ∃ c rest, dropWsL (b ++ x) = c :: rest ∧ c ≠ '"' := by
  intro b
  induction b with
  | nil =>
      intro x h
      cases h
  | cons c cs ih =>
      intro x h
      unfold expectQuoteWs at h
      by_cases hc : c = '"'
      · rw [if_pos hc] at h
        cases h
      · rw [if_neg hc] at h
        by_cases hw : isWsChar c = true
        · rw [if_pos hw] at h
          obtain ⟨c2, rest, hd, hne⟩ := ih x h
          refine ⟨c2, rest, ?_, hne⟩
          show dropWsL (c :: (cs ++ x)) = c2 :: rest
          unfold dropWsL
          rw [if_pos hw]
          exact hd
        · refine ⟨c, cs ++ x, ?_, hc⟩
          show dropWsL (c :: (cs ++ x)) = c :: (cs ++ x)
          unfold dropWsL
          rw [if_neg hw]

theorem consumeValueP_matched_append :
    ∀ (b r x : List Char), consumeValueP b = .matched r →
      consumeValue (b ++ x) = some (r ++ x) := by
  intro b
  induction b with
  | nil =>
      intro r x h
      cases h
  | cons c cs ih =>
      intro r x h
      unfold consumeValueP at h
      by_cases hc : c = '"'
      · rw [if_pos hc] at h
        injection h with h1
        subst h1
        show consumeValue (c :: (cs ++ x)) = some (cs ++ x)
        unfold consumeValue
        rw [if_pos hc]
      · rw [if_neg hc] at h
        show consumeValue (c :: (cs ++ x)) = some (r ++ x)
        unfold consumeValue
        rw [if_neg hc]
        exact ih r x h

theorem consumeValueP_ne_failChar : ∀ b : List Char,
    consumeValueP b ≠ .failChar := by
  intro b
  induction b with
  | nil => intro h; cases h
  | cons c cs ih =>
      intro h
      unfold consumeValueP at h
      by_cases hc : c = '"'
      · rw [if_pos hc] at h
        cases h
      · rw [if_neg hc] at h
        exact ih h

theorem stripLitP_matched_length (p : List Char) :
    ∀ b r, stripLitP p b = .matched r → r.length ≤ b.length := by
  induction p with
  | nil =>
      intro b r h
      injection h with h1
      subst h1
      exact le_refl _
  | cons pc ps ih =>
      intro b r h
      cases b with
      | nil => cases h
      | cons c cs =>
          unfold stripLitP at h
          by_cases hc : c = pc
          · rw [if_pos hc] at h
            exact le_trans (ih cs r h) (Nat.le_succ cs.length)
          · rw [if_neg hc] at h
            cases h

theorem expectColonWs_matched_length :
    ∀ b r, expectColonWs b = .matched r → r.length < b.length := by
  intro b
  induction b with
  | nil =>
      intro r h
      cases h
  | cons c cs ih =>
      intro r h
      unfold expectColonWs at h
      by_cases hc : c = ':'
      · rw [if_pos hc] at h
        injection h with h1
        subst h1
        exact Nat.lt_succ_self cs.length
      · rw [if_neg hc] at h
        by_cases hw : isWsChar c = true
        · rw [if_pos hw] at h
          exact lt_trans (ih r h) (Nat.lt_succ_self cs.length)
        · rw [if_neg hw] at h
          cases h

theorem expectQuoteWs_matched_length :
    ∀ b r, expectQuoteWs b = .matched r → r.length < b.length := by
  intro b
  induction b with
  | nil =>
      intro r h
      cases h
  | cons c cs ih =>
      intro r h
      unfold expectQuoteWs at h
      by_cases hc : c = '"'
      · rw [if_pos hc] at h
        injection h with h1
        subst h1
        exact Nat.lt_succ_self cs.length
      · rw [if_neg hc] at h
        by_cases hw : isWsChar c = true
        · rw [if_pos hw] at h
          exact lt_trans (ih r h) (Nat.lt_succ_self cs.length)
        · rw [if_neg hw] at h
          cases h

theorem consumeValueP_matched_length :
    ∀ b r, consumeValueP b = .matched r → r.length < b.length := by
  intro b
  induction b with
  | nil =>
      intro r h
      cases h
  | cons c cs ih =>
      intro r h
      unfold consumeValueP at h
      by_cases hc : c = '"'
      · rw [if_pos hc] at h
        injection h with h1
        subst h1
        exact Nat.lt_succ_self cs.length
      · rw [if_neg hc] at h
        exact lt_trans (ih r h) (Nat.lt_succ_self cs.length)

theorem probeTokenField_matched_append (b r : List Char)
    (hp : probeTokenField b = .matched r) :
    ∀ x, matchTokenField (b ++ x) = some (r ++ x) := by
  intro x
  unfold probeTokenField at hp
  cases h1 : stripLitP litAccessToken b with
  | failChar => simp [h1] at hp
  | failEnd => simp [h1] at hp
  | matched r1 =>
      simp only [h1] at hp
      cases h2 : expectColonWs r1 with
      | failChar => simp [h2] at hp
      | failEnd => simp [h2] at hp
      | matched r2 =>
          simp only [h2] at hp
          cases h3 : expectQuoteWs r2 with
          | failChar => simp [h3] at hp
          | failEnd => simp [h3] at hp
          | matched r3 =>
              simp only [h3] at hp
              cases h4 : consumeValueP r3 with
              | failChar => simp [h4] at hp
              | failEnd => simp [h4] at hp
              | matched r4 =>
                  simp only [h4, ProbeResult.matched.injEq] at hp
                  subst hp
                  unfold matchTokenField
                  simp only [stripLitP_matched_append litAccessToken b r1 x h1]
                  simp only [expectColonWs_matched_drop r1 r2 x h2]
                  simp only [expectQuoteWs_matched_drop r2 r3 x h3]
                  exact consumeValueP_matched_append r3 r4 x h4

theorem probeTokenField_failChar_none (b : List Char)
    (hp : probeTokenField b = .failChar) :
    ∀ x, matchTokenField (b ++ x) = none := by
  intro x
  unfold probeTokenField at hp
  cases h1 : stripLitP litAccessToken b with
  | failEnd => simp [h1] at hp
  | failChar =>
      unfold matchTokenField
      simp only [stripLitP_failChar_none litAccessToken b x h1]
  | matched r1 =>
      simp only [h1] at hp
      cases h2 : expectColonWs r1 with
      | failEnd => simp [h2] at hp
      | failChar =>
          unfold matchTokenField
          simp only [stripLitP_matched_append litAccessToken b r1 x h1]
          obtain ⟨c2, rest2, hd, hne⟩ := expectColonWs_failChar_drop r1 x h2
          rw [hd]
          split
          · rename_i heq
            injection heq with hc1 hc2
            exact absurd hc1 hne
          · rfl
      | matched r2 =>
          simp only [h2] at hp
          cases h3 : expectQuoteWs r2 with
          | failEnd => simp [h3] at hp
          | matched r3 =>
              simp only [h3] at hp
              cases h4 : consumeValueP r3 with
              | failEnd => simp [h4] at hp
              | matched r4 => simp [h4] at hp
              | failChar => exact absurd h4 (consumeValueP_ne_failChar r3)
          | failChar =>
              unfold matchTokenField
              simp only [stripLitP_matched_append litAccessToken b r1 x h1]
              simp only [expectColonWs_matched_drop r1 r2 x h2]
              obtain ⟨c3, rest3, hd, hne⟩ := expectQuoteWs_failChar_drop r2 x h3
              rw [hd]
              split
              · rename_i heq
                injection heq with hc1 hc2
                exact absurd hc1 hne
              · rfl

theorem probeTokenField_matched_length (b r : List Char)
    (hp : probeTokenField b = .matched r) : r.length < b.length := by
  unfold probeTokenField at hp
  cases h1 : stripLitP litAccessToken b with
  | failChar => simp [h1] at hp
  | failEnd => simp [h1] at hp
  | matched r1 =>
      simp only [h1] at hp
      cases h2 : expectColonWs r1 with
      | failChar => simp [h2] at hp
      | failEnd => simp [h2] at hp
      | matched r2 =>
          simp only [h2] at hp
          cases h3 : expectQuoteWs r2 with
          | failChar => simp [h3] at hp
          | failEnd => simp [h3] at hp
          | matched r3 =>
              simp only [h3] at hp
              cases h4 : consumeValueP r3 with
              | failChar => simp [h4] at hp
              | failEnd => simp [h4] at hp
              | matched r4 =>
                  simp only [h4, ProbeResult.matched.injEq] at hp
                  subst hp
                  have l1 := stripLitP_matched_length litAccessToken b r1 h1
                  have l2 := expectColonWs_matched_length r1 r2 h2
                  have l3 := expectQuoteWs_matched_length r2 r3 h3
                  have l4 := consumeValueP_matched_length r3 r4 h4
                  omega

theorem safeScan_steps_le :
    ∀ (fuel : Nat) (pre o : List Char) (n : Nat),
      safeScan fuel pre = some (o, n) → n ≤ pre.length := by
  intro fuel
  induction fuel with
  | zero =>
      intro pre o n h
      cases pre with
      | nil =>
          injection h with h1
          injection h1 with h2 h3
          omega
      | cons c cs => cases h
  | succ g ih =>
      intro pre o n h
      cases pre with
      | nil =>
          injection h with h1
          injection h1 with h2 h3
          omega
      | cons c cs =>
          unfold safeScan at h
          cases hp : probeTokenField (c :: cs) with
          | failEnd => simp [hp] at h
          | matched rest =>
              simp only [hp] at h
              cases hsc : safeScan g rest with
              | none => simp [hsc] at h
              | some p =>
                  rcases p with ⟨o2, n2⟩
                  simp only [hsc, Option.some.injEq, Prod.mk.injEq] at h
                  obtain ⟨_, hn⟩ := h
                  have hlt := probeTokenField_matched_length (c :: cs) rest hp
                  have hle := ih rest o2 n2 hsc
                  simp only [List.length_cons] at hlt ⊢
                  omega
          | failChar =>
              simp only [hp] at h
              cases hsc : safeScan g cs with
              | none => simp [hsc] at h
              | some p =>
                  rcases p with ⟨o2, n2⟩
                  simp only [hsc, Option.some.injEq, Prod.mk.injEq] at h
                  obtain ⟨_, hn⟩ := h
                  have hle := ih cs o2 n2 hsc
                  simp only [List.length_cons]
                  omega

theorem safeScan_subMask :
    ∀ (fuel : Nat) (pre out : List Char) (n : Nat),
      safeScan fuel pre = some (out, n) →
      ∀ (rest : List Char) (f : Nat), pre.length + rest.length ≤ f →
        subMask f (pre ++ rest) = out ++ subMask (f - n) rest := by
  intro fuel
  induction fuel with
  | zero =>
      intro pre out n h rest f hf
      cases pre with
      | nil =>
          injection h with h1
          injection h1 with h2 h3
          subst h2
          subst h3
          simp
      | cons c cs => cases h
  | succ g ih =>
      intro pre out n h rest f hf
      cases pre with
      | nil =>
          injection h with h1
          injection h1 with h2 h3
          subst h2
          subst h3
          simp
      | cons c cs =>
          unfold safeScan at h
          have hf1 : 1 ≤ f := by
            simp only [List.length_cons] at hf
            omega
          obtain ⟨f1, rfl⟩ : ∃ f1, f = f1 + 1 :=
            ⟨f - 1, by omega⟩
          cases hp : probeTokenField (c :: cs) with
          | failEnd => simp [hp] at h
          | matched rest2 =>
              simp only [hp] at h
              cases hsc : safeScan g rest2 with
              | none => simp [hsc] at h
              | some p =>
                  rcases p with ⟨o2, n2⟩
                  simp only [hsc, Option.some.injEq, Prod.mk.injEq] at h
                  obtain ⟨ho, hn⟩ := h
                  subst ho
                  subst hn
                  have hm : matchTokenField (c :: (cs ++ rest))
                      = some (rest2 ++ rest) :=
                    probeTokenField_matched_append (c :: cs) rest2 hp rest
                  have hstep : subMask (f1 + 1) ((c :: cs) ++ rest)
                      = maskChars ++ subMask f1 (rest2 ++ rest) := by
                    show subMask (f1 + 1) (c :: (cs ++ rest)) = _
                    simp only [subMask]
                    rw [hm]
                  rw [hstep]
                  have hlt := probeTokenField_matched_length (c :: cs) rest2 hp
                  have hrec := ih rest2 o2 n2 hsc rest f1
                    (by simp only [List.length_cons] at hf hlt; omega)
                  rw [hrec]
                  have hfs : f1 - n2 = f1 + 1 - (n2 + 1) := by omega
                  rw [hfs, List.append_assoc]
          | failChar =>
              simp only [hp] at h
              cases hsc : safeScan g cs with
              | none => simp [hsc] at h
              | some p =>
                  rcases p with ⟨o2, n2⟩
                  simp only [hsc, Option.some.injEq, Prod.mk.injEq] at h
                  obtain ⟨ho, hn⟩ := h
                  subst ho
                  subst hn
                  have hm : matchTokenField (c :: (cs ++ rest)) = none :=
                    probeTokenField_failChar_none (c :: cs) hp rest
                  have hstep : subMask (f1 + 1) ((c :: cs) ++ rest)
                      = c :: subMask f1 (cs ++ rest) := by
                    show subMask (f1 + 1) (c :: (cs ++ rest)) = _
                    simp only [subMask]
                    rw [hm]
                  rw [hstep]
                  have hrec := ih cs o2 n2 hsc rest f1
                    (by simp only [List.length_cons] at hf; omega)
                  rw [hrec]
                  have hfs : f1 - n2 = f1 + 1 - (n2 + 1) := by omega
                  rw [hfs]
                  rfl

theorem subMask_field_step (f : Nat) (v X : List Char)
    (hv : ∀ c ∈ v, c ≠ '"') :
    subMask (f + 1) (tokenFieldChars v ++ X) = maskChars ++ subMask f X := by
  have hassoc : tokenFieldChars v ++ X
      = litAccessToken ++ ':' :: ' ' :: '"' :: (v ++ '"' :: X) := by
    show (litAccessToken ++ ':' :: ' ' :: '"' :: (v ++ ['"'])) ++ X = _
    rw [List.append_assoc]
    simp [List.append_assoc]
  rw [hassoc]
  have hm := matchTokenField_at_field v X hv
  show subMask (f + 1)
      ('"' :: (['a', 'c', 'c', 'e', 's', 's', 'T', 'o', 'k', 'e', 'n', '"']
        ++ ':' :: ' ' :: '"' :: (v ++ '"' :: X))) = maskChars ++ subMask f X
  simp only [subMask]
  rw [show ('"' :: (['a', 'c', 'c', 'e', 's', 's', 'T', 'o', 'k', 'e', 'n', '"']
        ++ ':' :: ' ' :: '"' :: (v ++ '"' :: X)))
      = litAccessToken ++ ':' :: ' ' :: '"' :: (v ++ '"' :: X) from rfl, hm]

theorem subMask_masks_fields :
    ∀ (t : List (List Char × List Char)) (outT : List Char),
      (∀ p ∈ t, ∀ ch ∈ p.1, ch ≠ '"') →
      maskedTailOut t = some outT →
      ∀ f, (renderTail t).length ≤ f →
        subMask f (renderTail t) = outT := by
  intro t
  induction t with
  | nil =>
      intro outT _ hT f _
      injection hT with h1
      subst h1
      exact subMask_nil f
  | cons p rest ih =>
      rcases p with ⟨v, c⟩
      intro outT hvals hT f hf
      simp only [maskedTailOut] at hT
      cases hsc : safeScan c.length c with
      | none => simp [hsc] at hT
      | some q =>
          rcases q with ⟨o, n⟩
          cases hmt : maskedTailOut rest with
          | none => simp [hsc, hmt] at hT
          | some orest =>
              simp only [hsc, hmt, Option.some.injEq] at hT
              subst hT
              have hrt : renderTail ((v, c) :: rest)
                  = tokenFieldChars v ++ (c ++ renderTail rest) := by
                show (tokenFieldChars v ++ c) ++ renderTail rest = _
                rw [List.append_assoc]
              rw [hrt] at hf ⊢
              have hlen : (tokenFieldChars v ++ (c ++ renderTail rest)).length
                  = (tokenFieldChars v).length + (c.length
                    + (renderTail rest).length) := by
                simp only [List.length_append]
              have hfv : 1 ≤ (tokenFieldChars v).length := by
                simp only [tokenFieldChars, litAccessToken, List.length_append,
                  List.length_cons]
                omega
              rw [hlen] at hf
              have hf1 : 1 ≤ f := by omega
              obtain ⟨f1, rfl⟩ : ∃ f1, f = f1 + 1 := ⟨f - 1, by omega⟩
              rw [subMask_field_step f1 v (c ++ renderTail rest)
                (fun ch hch => hvals (v, c) (List.mem_cons_self _ _) ch hch)]
              have hns := safeScan_steps_le c.length c o n hsc
              have hrec := safeScan_subMask c.length c o n hsc
                (renderTail rest) f1 (by omega)
              rw [hrec]
              have hfields := ih orest
                (fun q hq => hvals q (List.mem_cons_of_mem _ hq))
                hmt (f1 - n) (by omega)
              rw [hfields, List.append_assoc]

theorem containsLit_mid (pre x : List Char) (c : Char) (cs : List Char) :
    containsLit (c :: cs) (pre ++ ((c :: cs) ++ x)) = true := by
  induction pre with
  | nil => exact containsLit_self_append c cs x
  | cons a pres ih =>
      show containsLit (c :: cs) (a :: (pres ++ ((c :: cs) ++ x))) = true
      unfold containsLit
      rw [ih]
      exact Bool.or_true _

theorem maskedTailOut_congr :
    ∀ (t1 t2 : List (List Char × List Char)),
      t1.map Prod.snd = t2.map Prod.snd →
      maskedTailOut t1 = maskedTailOut t2 := by
  intro t1
  induction t1 with
  | nil =>
      intro t2 h
      cases t2 with
      | nil => rfl
      | cons q qs => simp at h
  | cons p ps ih =>
      intro t2 h
      cases t2 with
      | nil => simp at h
      | cons q qs =>
          rcases p with ⟨v1, c1⟩
          rcases q with ⟨v2, c2⟩
          simp only [List.map_cons, List.cons.injEq] at h
          obtain ⟨hc, hrest⟩ := h
          subst hc
          show maskedTailOut ((v1, c1) :: ps) = maskedTailOut ((v2, c1) :: qs)
          unfold maskedTailOut
          rw [ih qs hrest]

theorem coverAccessToken_renderBody (c0 : List Char)
    (t : List (List Char × List Char)) (o0 : List Char) (n0 : Nat)
    (outT : List Char) (hne : t ≠ [])
    (hvals : ∀ p ∈ t, ∀ ch ∈ p.1, ch ≠ '"')
    (h0 : safeScan c0.length c0 = some (o0, n0))
    (hT : maskedTailOut t = some outT) :
    coverAccessToken (String.mk (c0 ++ renderTail t))
      = String.mk (o0 ++ outT) := by
  have hin : containsLit litAccessToken
      (String.mk (c0 ++ renderTail t)).toList = true := by
    rcases t with _ | ⟨⟨v, c⟩, rest⟩
    · exact absurd rfl hne
    · show containsLit litAccessToken (c0 ++ renderTail ((v, c) :: rest)) = true
      have hform : renderTail ((v, c) :: rest)
          = litAccessToken ++ ((':' :: ' ' :: '"' :: (v ++ ['"']))
            ++ (c ++ renderTail rest)) := by
        show ((litAccessToken ++ ':' :: ' ' :: '"' :: (v ++ ['"'])) ++ c)
            ++ renderTail rest = _
        rw [List.append_assoc, List.append_assoc]
      rw [hform]
      exact containsLit_mid c0 _ '"'
        ['a', 'c', 'c', 'e', 's', 's', 'T', 'o', 'k', 'e', 'n', '"']
  unfold coverAccessToken
  rw [hin]
  simp only [if_true]
  show String.mk (subMask ((c0 ++ renderTail t).length + 1)
      (c0 ++ renderTail t)) = String.mk (o0 ++ outT)
  have hns := safeScan_steps_le c0.length c0 o0 n0 h0
  have hcomp := safeScan_subMask c0.length c0 o0 n0 h0 (renderTail t)
    ((c0 ++ renderTail t).length + 1)
    (by simp only [List.length_append]; omega)
  rw [hcomp]
  have hfields := subMask_masks_fields t outT hvals hT
    ((c0 ++ renderTail t).length + 1 - n0)
    (by simp only [List.length_append]; omega)
  rw [hfields]

/-- C9 (amended).  For a 4xx-fatal response whose body consists of
arbitrary self-contained content interleaved with any number of accessToken
JSON fields (quote-free values), the redaction replaces the value of every
accessToken field by the mask `****`, so the raised error text is fully
determined by the non-secret content: the classification of
`validate_response` is identical for any two assignments of the secret
values, which therefore cannot influence or appear in the propagated error
text.  Token values appearing under any other spelling are not redacted
(see the counterexample). -/
theorem token_value_noninterference (extraRetry : List Nat)
    (count : Option Nat) (r : HttpResp) (c0 : List Char)
    (t1 t2 : List (List Char × List Char)) (o0 : List Char) (n0 : Nat)
    (outT : List Char) (hne : t1 ≠ [])
    (hv1 : ∀ p ∈ t1, ∀ ch ∈ p.1, ch ≠ '"')
    (hv2 : ∀ p ∈ t2, ∀ ch ∈ p.1, ch ≠ '"')
    (hsnd : t1.map Prod.snd = t2.map Prod.snd)
    (h0 : safeScan c0.length c0 = some (o0, n0))
    (hT : maskedTailOut t1 = some outT) :
    coverAccessToken (String.mk (c0 ++ renderTail t1))
      = String.mk (o0 ++ outT) ∧
    validateResponseBase extraRetry count
        { r with text := String.mk (c0 ++ renderTail t1) }
      = validateResponseBase extraRetry count
        { r with text := String.mk (c0 ++ renderTail t2) } := by
  have hne2 : t2 ≠ [] := by
    intro habs
    rw [habs] at hsnd
    simp at hsnd
    exact hne hsnd
  have hT2 : maskedTailOut t2 = some outT := by
    rw [← maskedTailOut_congr t1 t2 hsnd]
    exact hT
  have hc1 := coverAccessToken_renderBody c0 t1 o0 n0 outT hne hv1 h0 hT
  have hc2 := coverAccessToken_renderBody c0 t2 o0 n0 outT hne2 hv2 h0 hT2
  refine ⟨hc1, ?_⟩
  obtain ⟨s0, j0, x0, k0, f0, g0, u0, tx0, rc0⟩ := r
  have hmsg : fatalErrorMessage s0 u0 (String.mk (c0 ++ renderTail t1))
      = fatalErrorMessage s0 u0 (String.mk (c0 ++ renderTail t2)) := by
    unfold fatalErrorMessage
    rw [hc1, hc2]
  simp only [validateResponseBase, hmsg]

/-- Closed instance of C9 (amended): a realistic fatal-error envelope
carrying an accessToken field between a fault object and further fields is
masked, and the classification for secret SECRETA equals the one for
SECRETB. -/
theorem token_value_noninterference_witness :
    coverAccessToken (String.mk
        ("\x7b\"fault\":\x7b\"type\":\"AuthError\"\x7d,".toList
          ++ renderTail [("SECRETA".toList, ",\"live\":true\x7d".toList)]))
      = String.mk ("\x7b\"fault\":\x7b\"type\":\"AuthError\"\x7d,".toList
          ++ (maskChars ++ ",\"live\":true\x7d".toList ++ [])) ∧
    validateResponseBase [429] none
        { status := 400, jsonOk := true, hasNext := false, count := 0,
          faultType := none, faultCurrency := none, url := "u",
          text := String.mk
            ("\x7b\"fault\":\x7b\"type\":\"AuthError\"\x7d,".toList
              ++ renderTail [("SECRETA".toList, ",\"live\":true\x7d".toList)]),
          records := [] }
      = validateResponseBase [429] none
        { status := 400, jsonOk := true, hasNext := false, count := 0,
          faultType := none, faultCurrency := none, url := "u",
          text := String.mk
            ("\x7b\"fault\":\x7b\"type\":\"AuthError\"\x7d,".toList
              ++ renderTail [("SECRETB".toList, ",\"live\":true\x7d".toList)]),
          records := [] } :=
  token_value_noninterference [429] none
    { status := 400, jsonOk := true, hasNext := false, count := 0,
      faultType := none, faultCurrency := none, url := "u",
      text := "", records := [] }
    ("\x7b\"fault\":\x7b\"type\":\"AuthError\"\x7d,".toList)
    [("SECRETA".toList, ",\"live\":true\x7d".toList)]
    [("SECRETB".toList, ",\"live\":true\x7d".toList)]
    ("\x7b\"fault\":\x7b\"type\":\"AuthError\"\x7d,".toList)
    ("\x7b\"fault\":\x7b\"type\":\"AuthError\"\x7d,".toList.length)
    (maskChars ++ ",\"live\":true\x7d".toList ++ [])
    (by decide) (by decide) (by decide) (by decide) (by decide) (by decide)

theorem pyRemove_eq (l : List String) (x : Option String) (cs : List String)
    (h : pyRemove l x = some cs) : ∃ s, cs = l.erase s := by
  cases x with
  | none => simp [pyRemove] at h
  | some s =>
      simp only [pyRemove] at h
      by_cases hm : s ∈ l
      · rw [if_pos hm] at h
        exact ⟨s, (Option.some.inj h).symm⟩
      · rw [if_neg hm] at h
        cases h

theorem pyIndex_mem (l : List String) (i : Int) (a : String)
    (h : pyIndex l i = some a) : a ∈ l := by
  unfold pyIndex at h
  split_ifs at h
  · exact List.getElem?_mem h
  · exact List.getElem?_mem h

theorem productsValidate_state (extraRetry : List Nat) (s : ProductsState)
    (r : HttpResp) :
    (productsValidate extraRetry s r).1.firstCurrency = s.firstCurrency ∧
    ((productsValidate extraRetry s r).1.currencies = s.currencies ∨
      ∃ c, (productsValidate extraRetry s r).1.currencies
        = s.currencies.erase c) := by
  unfold productsValidate
  by_cases h1 : r.jsonOk = false
  · simp [h1]
  · rw [if_neg h1]
    by_cases h2 : r.status = 400
    · rw [if_pos h2]
      by_cases h3 : r.faultType = some "UnsupportedCurrencyException"
      · rw [if_pos h3]
        rcases hpr : pyRemove s.currencies r.faultCurrency with _ | cs
        · simp [hpr]
        · obtain ⟨c, hc⟩ := pyRemove_eq _ _ _ hpr
          exact ⟨rfl, Or.inr ⟨c, hc⟩⟩
      · rw [if_neg h3]
        exact ⟨rfl, Or.inl rfl⟩
    · rw [if_neg h2]
      split_ifs <;> exact ⟨rfl, Or.inl rfl⟩

theorem productsGnpt_state (s : ProductsState) (prev : Option Int)
    (s2 : ProductsState) (tok : Option Int)
    (h : productsGnpt s prev = some (s2, tok)) :
    s2.currencies = s.currencies ∧
    (s2.firstCurrency = none ∨
      ∃ c, s2.firstCurrency = some c ∧ c ∈ s.currencies) := by
  unfold productsGnpt at h
  by_cases hlt : prev.getD 0 < (s.currencies.length : Int) - 1
  · rw [if_pos hlt] at h
    simp only [Option.some.injEq, Prod.mk.injEq] at h
    obtain ⟨h1, _⟩ := h
    subst h1
    exact ⟨rfl, Or.inl rfl⟩
  · rw [if_neg hlt] at h
    rcases hcur : s.currencies with _ | ⟨c, rest⟩
    · rw [hcur] at h
      cases h
    · rw [hcur] at h
      simp only [Option.some.injEq, Prod.mk.injEq] at h
      obtain ⟨h1, _⟩ := h
      subst h1
      refine ⟨rfl, Or.inr ⟨c, rfl, ?_⟩⟩
      exact List.mem_cons_self c rest

theorem prodStep_validate_eq (extraRetry : List Nat) (s : ProductsState)
    (r : HttpResp) (s2 : ProductsState)
    (h : prodStep extraRetry s (.validate r) = some s2) :
    s2 = (productsValidate extraRetry s r).1 := by
  simp only [prodStep] at h
  rcases hv : productsValidate extraRetry s r with ⟨s3, out⟩
  rw [hv] at h
  cases out <;> simp_all

theorem prodStep_next_eq (extraRetry : List Nat) (s : ProductsState)
    (prev : Option Int) (s2 : ProductsState)
    (h : prodStep extraRetry s (.nextToken prev) = some s2) :
    ∃ tok, productsGnpt s prev = some (s2, tok) := by
  simp only [prodStep] at h
  rcases hg : productsGnpt s prev with _ | ⟨s3, tok⟩
  · rw [hg] at h
    cases h
  · rw [hg] at h
    simp only [Option.map_some', Option.some.injEq] at h
    exact ⟨tok, by rw [h]⟩

theorem prodStep_no_eur (extraRetry : List Nat) (s s2 : ProductsState)
    (e : ProdEvent) (hstep : prodStep extraRetry s e = some s2)
    (h1 : "EUR" ∉ s.currencies) (h2 : s.firstCurrency ≠ some "EUR") :
    "EUR" ∉ s2.currencies ∧ s2.firstCurrency ≠ some "EUR" := by
  cases e with
  | validate r =>
      obtain rfl := prodStep_validate_eq extraRetry s r s2 hstep
      obtain ⟨hfc, hcur⟩ := productsValidate_state extraRetry s r
      constructor
      · rcases hcur with hsame | ⟨c, hc⟩
        · rw [hsame]
          exact h1
        · rw [hc]
          intro hmemE
          exact h1 (List.mem_of_mem_erase hmemE)
      · rw [hfc]
        exact h2
  | nextToken prev =>
      obtain ⟨tok, hg⟩ := prodStep_next_eq extraRetry s prev s2 hstep
      obtain ⟨hcur, hfc⟩ := productsGnpt_state s prev s2 tok hg
      constructor
      · rw [hcur]
        exact h1
      · rcases hfc with hnone | ⟨c, hc, hcmem⟩
        · rw [hnone]
          simp
        · rw [hc]
          intro heq
          simp only [Option.some.injEq] at heq
          subst heq
          exact h1 hcmem

theorem prodRun_no_eur (extraRetry : List Nat) (evs : List ProdEvent)
    (s s2 : ProductsState) (hrun : prodRun extraRetry s evs = some s2)
    (h1 : "EUR" ∉ s.currencies) (h2 : s.firstCurrency ≠ some "EUR") :
    "EUR" ∉ s2.currencies ∧ s2.firstCurrency ≠ some "EUR" := by
  induction evs generalizing s with
  | nil =>
      unfold prodRun at hrun
      injection hrun with h
      subst h
      exact ⟨h1, h2⟩
  | cons e es ih =>
      unfold prodRun at hrun
      rcases hs : prodStep extraRetry s e with _ | s3
      · rw [hs] at hrun
        cases hrun
      · rw [hs] at hrun
        obtain ⟨g1, g2⟩ := prodStep_no_eur extraRetry s s3 e hs h1 h2
        exact ih s3 hrun g1 g2

theorem productsUrlCurrency_no_eur (s : ProductsState) (tok : Option Int)
    (cur : Option String) (h1 : "EUR" ∉ s.currencies)
    (h2 : s.firstCurrency ≠ some "EUR")
    (hu : productsUrlCurrency s tok = some cur) : cur ≠ some "EUR" := by
  unfold productsUrlCurrency at hu
  rcases hfc : s.firstCurrency with _ | c
  · rw [hfc] at hu
    by_cases ht : tokenTruthy tok = true
    · rw [if_pos ht] at hu
      rcases hpi : pyIndex s.currencies (tok.getD 0) with _ | c
      · rw [hpi] at hu
        cases hu
      · rw [hpi] at hu
        simp only [Option.map_some', Option.some.injEq] at hu
        subst hu
        intro heq
        simp only [Option.some.injEq] at heq
        subst heq
        exact h1 (pyIndex_mem s.currencies (tok.getD 0) "EUR" hpi)
    · rw [if_neg ht] at hu
      injection hu with h
      subst h
      simp
  · rw [hfc] at hu
    injection hu with h
    subst h
    rw [hfc] at h2
    exact h2

/-- C7.  A 400 response whose fault is `UnsupportedCurrencyException` for
currency EUR makes `ProductsStream.validate_response` remove EUR from the
working currency list without raising, and after the following
`get_next_page_token` call every later request of the run carries a
currency parameter different from EUR (under any further sequence of
validations and token computations). -/
theorem unsupported_currency_removed (extraRetry : List Nat)
    (s : ProductsState) (r : HttpResp) (hnd : s.currencies.Nodup)
    (hmem : "EUR" ∈ s.currencies) (hj : r.jsonOk = true)
    (hs400 : r.status = 400)
    (hft : r.faultType = some "UnsupportedCurrencyException")
    (hfcur : r.faultCurrency = some "EUR") :
    productsValidate extraRetry s r
      = ({ s with currencies := s.currencies.erase "EUR" }, .ok) ∧
    "EUR" ∉ s.currencies.erase "EUR" ∧
    (∀ (prev : Option Int) (s1 : ProductsState) (tok1 : Option Int)
        (evs : List ProdEvent) (s2 : ProductsState),
      productsGnpt { s with currencies := s.currencies.erase "EUR" } prev
          = some (s1, tok1) →
      prodRun extraRetry s1 evs = some s2 →
      ∀ (tok : Option Int) (cur : Option String),
        productsUrlCurrency s2 tok = some cur → cur ≠ some "EUR") := by
  have heur : "EUR" ∉ s.currencies.erase "EUR" := hnd.not_mem_erase
  refine ⟨?_, heur, ?_⟩
  · unfold productsValidate
    rw [if_neg (by rw [hj]; simp), if_pos hs400, if_pos hft]
    have hpr : pyRemove s.currencies r.faultCurrency
        = some (s.currencies.erase "EUR") := by
      rw [hfcur]
      show (if "EUR" ∈ s.currencies then some (s.currencies.erase "EUR")
        else none) = some (s.currencies.erase "EUR")
      rw [if_pos hmem]
    rw [hpr]
  · intro prev s1 tok1 evs s2 hg hrun tok cur hu
    obtain ⟨hcur1, hfc1⟩ := productsGnpt_state _ prev s1 tok1 hg
    have h1 : "EUR" ∉ s1.currencies := by
      rw [hcur1]
      exact heur
    have h2 : s1.firstCurrency ≠ some "EUR" := by
      rcases hfc1 with hnone | ⟨c, hc, hcmem⟩
      · rw [hnone]
        simp
      · rw [hc]
        intro heq
        simp only [Option.some.injEq] at heq
        subst heq
        exact heur hcmem
    obtain ⟨g1, g2⟩ := prodRun_no_eur extraRetry evs s1 s2 hrun h1 h2
    exact productsUrlCurrency_no_eur s2 tok cur g1 g2 hu

/-- Closed instance of C7: from the initial state, the EUR-unsupported 400
removes EUR, and the next request (token 1, currency list without EUR)
carries GBP, not EUR. -/
theorem unsupported_currency_removed_witness :
    productsValidate [429] productsInitState
        ⟨400, true, false, 0, some "UnsupportedCurrencyException",
          some "EUR", "u", "b", []⟩
      = ({ productsInitState with
            currencies := productsInitState.currencies.erase "EUR" }, .ok) ∧
    (some "GBP" : Option String) ≠ some "EUR" :=
  ⟨(unsupported_currency_removed [429] productsInitState
      ⟨400, true, false, 0, some "UnsupportedCurrencyException",
        some "EUR", "u", "b", []⟩
      (by decide) (by decide) rfl rfl rfl rfl).1,
   (unsupported_currency_removed [429] productsInitState
      ⟨400, true, false, 0, some "UnsupportedCurrencyException",
        some "EUR", "u", "b", []⟩
      (by decide) (by decide) rfl rfl rfl rfl).2.2 none
      ⟨["USD", "GBP"], none⟩ (some 1) [] ⟨["USD", "GBP"], none⟩
      (by decide) rfl (some 1) (some "GBP") (by decide)⟩

/-- C10 counterexample.  With configured order ids the first token returned
by `OrdersStream.get_next_page_token` (previous token `None`) is 1, not 0
as the claimed sequence 0, 1, ..., n-1 begins; with a single order id the
first returned token is already `None`. -/
theorem order_ids_first_token_not_zero :
    (ordersGetNextPageToken ["a", "b"] none ⟨[], none⟩
        ⟨200, true, false, 0, none, none, "u", "b", []⟩ none).2 = some 1 ∧
    some (1 : Int) ≠ some 0 ∧
    (ordersGetNextPageToken ["a"] none ⟨[], none⟩
        ⟨200, true, false, 0, none, none, "u", "b", []⟩ none).2 = none := by
  refine ⟨by decide, by decide, by decide⟩

theorem ordersIdRun_aux (ids : List String) (script : List HttpResp)
    (k : Nat) (prev : Option Int) (hk : k < ids.length)
    (hgetd : prev.getD 0 = (k : Int)) (hne2 : prev ≠ some ((k : Int) + 1))
    (hlen : ids.length - k ≤ script.length) :
    ordersIdRun ids script prev = ((ids.drop k).map some, .finished) := by
  induction script generalizing k prev with
  | nil =>
      exfalso
      simp only [List.length_nil] at hlen
      omega
  | cons r rs ih =>
      have hne : ids.isEmpty = false := by
        cases ids
        · simp at hk
        · rfl
      have hphrase : ordersSearchPhrase ids prev = some (ids.get ⟨k, hk⟩) := by
        unfold ordersSearchPhrase pyIndex
        rw [hgetd, if_pos (Int.natCast_nonneg k)]
        have htn : ((k : Int)).toNat = k := rfl
        rw [htn]
        simp [List.getElem?_eq_getElem hk]
      have hnext : (ordersGetNextPageToken ids none ⟨[], none⟩ r prev).2
          = if (k : Int) < (ids.length : Int) - 1 then some ((k : Int) + 1)
            else none := by
        unfold ordersGetNextPageToken
        rw [hne]
        simp only [Bool.false_eq_true, if_false, hgetd]
        by_cases hc : (k : Int) < (ids.length : Int) - 1
        · rw [if_pos hc, if_pos hc]
        · rw [if_neg hc, if_neg hc]
      simp only [ordersIdRun, hphrase, hnext]
      by_cases hc : k + 1 < ids.length
      · have hci : (k : Int) < (ids.length : Int) - 1 := by omega
        rw [if_pos hci]
        rw [if_neg (by rintro ⟨_, habs⟩; exact hne2 habs.symm)]
        rw [if_neg (by simp)]
        rw [ih (k + 1) (some ((k : Int) + 1)) hc (by push_cast; simp)
          (by simp)
          (by simp only [List.length_cons] at hlen; omega)]
        rw [List.drop_eq_getElem_cons hk, List.map_cons]
        rfl
      · have hci : ¬(k : Int) < (ids.length : Int) - 1 := by omega
        rw [if_neg hci]
        rw [if_neg (by simp [tokenTruthy])]
        rw [if_pos rfl]
        rw [List.drop_eq_getElem_cons hk, List.drop_eq_nil_of_le (by omega),
          List.map_cons, List.map_nil]
        rfl

/-- C10 (amended).  With a non-empty configured order-id list,
`get_next_page_token` fed back its own outputs from `None` returns the
token sequence 1, 2, ..., n-1 followed by `None`, so (starting from the
initial `None` token) exactly one order-search request is issued per
configured order id, each carrying that id as the search phrase, whatever
the content of the responses. -/
theorem order_ids_one_request_per_id (ids : List String)
    (script : List HttpResp) (hne : ids ≠ [])
    (hlen : ids.length ≤ script.length) :
    ordersIdRun ids script none = (ids.map some, .finished) := by
  have h0 : 0 < ids.length := List.length_pos.mpr hne
  have h := ordersIdRun_aux ids script 0 none h0 rfl (by simp)
    (by simpa using hlen)
  simpa using h

/-- Closed instance of C10 (amended): with order ids o1, o2 the run issues
exactly the two search requests o1 then o2 and finishes, for any
sufficiently long response script. -/
theorem order_ids_one_request_per_id_witness :
    ordersIdRun ["o1", "o2"]
        (List.replicate 2 ⟨200, true, false, 0, none, none, "u", "b", []⟩)
        none
      = ([some "o1", some "o2"], .finished) :=
  order_ids_one_request_per_id ["o1", "o2"]
    (List.replicate 2 ⟨200, true, false, 0, none, none, "u", "b", []⟩)
    (by decide) (by decide)
